import Mathlib

/-!
Verification development for the settlement core of tdex-daemon
(internal/core/application/types.go and its collaborators).

The Go code is shallowly embedded: byte slices become List Nat, Go maps
that are only looked up (never iterated) become association lists,
fallible calls return Except, and a Go runtime panic is modelled as the
value none of an outer Option layer.  External collaborators that the
source calls but whose code lives outside this repository
(transaction.NewTxFromHex, btcec.ParsePubKey, payment.FromPublicKey,
tx.TxHash) are oracles collected in a ChainEnv record, so every theorem
below is proved for an arbitrary behaviour of those collaborators.
-/

deriving instance DecidableEq for Except

/-- Hex digit character for a value below 16, lower case as produced by
Go's hex.EncodeToString. -/
def hexDigit (n : Nat) : Char :=
  if n < 10 then Char.ofNat (48 + n) else Char.ofNat (87 + n)

/-- Embedding of Go's hex.EncodeToString over a byte list. -/
def hexEncode (bytes : List Nat) : String :=
  String.mk (bytes.foldr (fun b acc => hexDigit (b / 16 % 16) :: hexDigit (b % 16) :: acc) [])

/-- The two fields of domain.AddressInfo that ExtractUnspents reads. -/
structure AddressInfo where
  Address : String
  BlindingKey : List Nat
deriving DecidableEq

/-- Transaction input as parsed by go-elements: previous outpoint hash and
index, plus the segwit witness stack. -/
structure TxInput where
  Hash : List Nat
  Index : Nat
  Witness : List (List Nat)
deriving DecidableEq

/-- Confidential transaction output as parsed by go-elements. -/
structure TxOutput where
  Asset : List Nat
  Value : List Nat
  Script : List Nat
  Nonce : List Nat
  RangeProof : List Nat
  SurjectionProof : List Nat
deriving DecidableEq

/-- Parsed transaction: the fields the source iterates over. -/
structure Tx where
  Inputs : List TxInput
  Outputs : List TxOutput
deriving DecidableEq

/-- Unblinded data recovered by transactionutil.UnblindOutput. -/
structure UnblindedResult where
  AssetHash : String
  Value : Nat
  AssetBlinder : List Nat
  ValueBlinder : List Nat
deriving DecidableEq

/-- domain.Unspent with exactly the fields the source populates. -/
structure Unspent where
  TxID : String
  VOut : Nat
  Value : Nat
  AssetHash : String
  ValueCommitment : String
  AssetCommitment : String
  ValueBlinder : List Nat
  AssetBlinder : List Nat
  ScriptPubKey : List Nat
  Nonce : List Nat
  RangeProof : List Nat
  SurjectionProof : List Nat
  Address : String
  Confirmed : Bool
deriving DecidableEq

/-- domain.UnspentKey: the outpoint of a consumed entry. -/
structure UnspentKey where
  TxID : String
  VOut : Nat
deriving DecidableEq

/-- Errors returned by the transaction manager: the error propagated from
transaction.NewTxFromHex, and the fmt.Errorf produced when an owned
output cannot be unblinded. -/
inductive GoErr where
  | parse (msg : String)
  | unblind
deriving DecidableEq

/-- Oracles for the external collaborators called by ExtractUnspents.
parsePubKey returns none when btcec.ParsePubKey fails (the Go code
discards the error and keeps a nil pointer); witnessScript is the
WitnessScript of payment.FromPublicKey for the given network;
txIDFromBytes and commitmentFromBytes are the bufferutil encoders;
txHash is tx.TxHash().String(). -/
structure ChainEnv where
  parseTx : String → Except String Tx
  parsePubKey : List Nat → Option (List Nat)
  witnessScript : List Nat → String → List Nat
  unblindOutput : TxOutput → List Nat → Option UnblindedResult
  txIDFromBytes : List Nat → String
  commitmentFromBytes : List Nat → String
  txHash : Tx → String

/-- Input loop of transactionManager.ExtractUnspents.  For each input with
a nonempty witness the Go code reads in.Witness[1] unguarded and feeds
the (possibly nil) parsed key to payment.FromPublicKey; both a
one-element witness stack and an unparseable second element therefore
crash at runtime, which the embedding records as none.  A returned list
holds the spent keys of the owned inputs in order. -/
def processInputs (env : ChainEnv) (net : String)
    (infoByScript : List (String × AddressInfo)) :
    List TxInput → Option (List UnspentKey)
  | [] => some []
  | inp :: rest =>
    if inp.Witness.length > 0 then
      match inp.Witness.get? 1 with
      | none => none
      | some w1 =>
        match env.parsePubKey w1 with
        | none => none
        | some pk =>
          let script := hexEncode (env.witnessScript pk net)
          match processInputs env net infoByScript rest with
          | none => none
          | some keys =>
            if (infoByScript.lookup script).isSome then
              some ({ TxID := env.txIDFromBytes inp.Hash, VOut := inp.Index } :: keys)
            else
              some keys
    else
      processInputs env net infoByScript rest

/-- Output loop of transactionManager.ExtractUnspents, carrying the output
index.  An owned output that fails to unblind aborts the whole call with
the unblind error; outputs whose script is not in the map are skipped. -/
def processOutputs (env : ChainEnv) (infoByScript : List (String × AddressInfo))
    (txid : String) : Nat → List TxOutput → Except GoErr (List Unspent)
  | _, [] => .ok []
  | i, out :: rest =>
    match infoByScript.lookup (hexEncode out.Script) with
    | some info =>
      match env.unblindOutput out info.BlindingKey with
      | none => .error .unblind
      | some unconf =>
        match processOutputs env infoByScript txid (i + 1) rest with
        | .error e => .error e
        | .ok us =>
          .ok ({ TxID := txid, VOut := i, Value := unconf.Value,
                 AssetHash := unconf.AssetHash,
                 ValueCommitment := env.commitmentFromBytes out.Value,
                 AssetCommitment := env.commitmentFromBytes out.Asset,
                 ValueBlinder := unconf.ValueBlinder,
                 AssetBlinder := unconf.AssetBlinder,
                 ScriptPubKey := out.Script,
                 Nonce := out.Nonce,
                 RangeProof := [0],
                 SurjectionProof := [0],
                 Address := info.Address,
                 Confirmed := false } :: us)
    | none => processOutputs env infoByScript txid (i + 1) rest

/-- Embedding of transactionManager.ExtractUnspents.  The outer Option is
the runtime layer: none models a Go panic in the input loop; some e is a
normal return, with the parse error, the unblind error, or the pair of
new unspents and spent keys. -/
def extractUnspents (env : ChainEnv) (txHex : String)
    (infoByScript : List (String × AddressInfo)) (net : String) :
    Option (Except GoErr (List Unspent × List UnspentKey)) :=
  match env.parseTx txHex with
  | .error e => some (.error (.parse e))
  | .ok tx =>
    match processInputs env net infoByScript tx.Inputs with
    | none => none
    | some spent =>
      match processOutputs env infoByScript (env.txHash tx) 0 tx.Outputs with
      | .error e => some (.error e)
      | .ok us => some (.ok (us, spent))

/-- Per-index blinding data as in wallet.BlindingData / application.BlindingData. -/
structure BlindingData where
  AssetHash : String
  Value : Nat
  AssetBlinder : List Nat
  ValueBlinder : List Nat
deriving DecidableEq

/-- One side (input or output) of a partially-signed transaction as seen by
the blinding-data extractor: the identifier under which blinding keys are
supplied for it, plus its opaque confidential payload. -/
structure PsetElem where
  Ident : String
  Data : List Nat
deriving DecidableEq

/-- Parsed partially-signed transaction: its input and output sides. -/
structure Pset where
  Ins : List PsetElem
  Outs : List PsetElem
deriving DecidableEq

/-- Oracles for the PSET collaborators: the base64 parser and the
per-element unblinder. -/
structure PsetEnv where
  parsePset : String → Except String Pset
  unblind : PsetElem → List Nat → Option BlindingData

/-- Per-side loop of the blinding-data extractor, carrying the index: an
element whose identifier has no supplied key is skipped (no entry, no
error); a keyed element is unblinded, a failure aborting the call. -/
def processPsetElems (env : PsetEnv) (keys : List (String × List Nat)) :
    Nat → List PsetElem → Except GoErr (List (Nat × BlindingData))
  | _, [] => .ok []
  | i, e :: rest =>
    match keys.lookup e.Ident with
    | none => processPsetElems env keys (i + 1) rest
    | some k =>
      match env.unblind e k with
      | none => .error .unblind
      | some d =>
        match processPsetElems env keys (i + 1) rest with
        | .error err => .error err
        | .ok l => .ok ((i, d) :: l)

/-- Modelled from the spec: wallet.ExtractBlindingDataFromTx is code of
this repository (pkg/wallet) that is not under src/.  Following section
4.3 of the spec: for every input/output index for which a key is
supplied, attempt unblinding; indices without a supplied key are skipped
(no entry, not an error); if the underlying transaction cannot be
parsed, fail immediately. -/
def extractBlindingDataFromTx (env : PsetEnv) (psetBase64 : String)
    (inBlindingKeys outBlindingKeys : List (String × List Nat)) :
    Except GoErr (List (Nat × BlindingData) × List (Nat × BlindingData)) :=
  match env.parsePset psetBase64 with
  | .error e => .error (.parse e)
  | .ok ptx =>
    match processPsetElems env inBlindingKeys 0 ptx.Ins with
    | .error e => .error e
    | .ok inData =>
      match processPsetElems env outBlindingKeys 0 ptx.Outs with
      | .error e => .error e
      | .ok outData => .ok (inData, outData)

/-- Embedding of transactionManager.ExtractBlindingData: it delegates to
wallet.ExtractBlindingDataFromTx, returns its error unchanged (with both
maps empty, i.e. nil), and otherwise copies each per-index entry one to
one into the application-level maps. -/
def extractBlindingData (env : PsetEnv) (psetBase64 : String)
    (inBlindingKeys outBlindingKeys : List (String × List Nat)) :
    Except GoErr (List (Nat × BlindingData) × List (Nat × BlindingData)) :=
  extractBlindingDataFromTx env psetBase64 inBlindingKeys outBlindingKeys

/-- Owned UTXO as handed to the fill-proposal builder (explorer.Utxo):
outpoint, unblinded value and asset. -/
structure Utxo where
  Hash : String
  Index : Nat
  Value : Nat
  Asset : String
deriving DecidableEq

/-- domain.SwapRequest: the two legs of a trade, asset and amount the
proposer sends (P) and asset and amount requested (R). -/
structure SwapRequest where
  AmountP : Nat
  AssetP : String
  AmountR : Nat
  AssetR : String
deriving DecidableEq

/-- FillProposalOpts restricted to the data the modelled algorithm reads;
FeeAsset stands for the network's fee asset (network.AssetID). -/
structure FillOpts where
  SwapRequest : SwapRequest
  MarketUtxos : List Utxo
  FeeUtxos : List Utxo
  OutputInfo : AddressInfo
  ChangeInfo : AddressInfo
  FeeChangeInfo : AddressInfo
  FeeAsset : String
deriving DecidableEq

/-- Unblinded legs of the assembled transaction: (asset, value) pairs for
the inputs and for the outputs. -/
structure TxLegs where
  Ins : List (String × Nat)
  Outs : List (String × Nat)
deriving DecidableEq

/-- FillProposalResult restricted to the parts the claims constrain: the
assembled transaction legs and the selected unspents. -/
structure FillResult where
  Tx : TxLegs
  SelectedUnspents : List Utxo
deriving DecidableEq

/-- Distinct failure kinds of the fill-proposal builder: insufficient
funds on the trade leg and insufficient funds on the fee leg. -/
inductive FillError where
  | insufficientFunds
  | insufficientFeeFunds
deriving DecidableEq

/-- Sum of the unblinded values of a list of UTXOs. -/
def sumUtxos (l : List Utxo) : Nat := (l.map Utxo.Value).sum

/-- Strict lexicographic comparison of selection keys
(leftover, input count, enumeration position). -/
def keyLT : Nat × Nat × Nat → Nat × Nat × Nat → Bool
  | (a1, a2, a3), (b1, b2, b3) =>
    a1 < b1 || (a1 == b1 && (a2 < b2 || (a2 == b2 && a3 < b3)))

/-- Pairs each element with its position, starting at the given index. -/
def withIdx : Nat → List α → List (Nat × α)
  | _, [] => []
  | n, x :: xs => (n, x) :: withIdx (n + 1) xs

/-- Selection key of an enumerated candidate subset: its leftover above
the requested amount, its number of inputs, and its enumeration
position; the position component makes the key unique per candidate. -/
def selKey (amount : Nat) (p : Nat × List Utxo) : Nat × Nat × Nat :=
  (sumUtxos p.2 - amount, p.2.length, p.1)

/-- Candidate selections: the subsets of the UTXOs of the requested asset,
enumerated in insertion order, whose value sum covers the amount. -/
def selCandidates (utxos : List Utxo) (asset : String) (amount : Nat) :
    List (Nat × List Utxo) :=
  (withIdx 0 (utxos.filter (fun u => u.Asset == asset)).sublists).filter
    (fun p => decide (amount ≤ sumUtxos p.2))

/-- First element of the list minimizing the key under keyLT. -/
def pickMin (f : α → Nat × Nat × Nat) : List α → Option α
  | [] => none
  | x :: xs => some (xs.foldl (fun acc y => if keyLT (f y) (f acc) then y else acc) x)

/-- Modelled from the spec: the coin selection of fillProposal, whose body
is code of this repository not under src/.  Following section 4.4 step 1
of the spec: select a subset of the UTXOs of the requested asset whose
unblinded value sum covers the requested amount, minimizing leftover,
with ties broken by fewest inputs and then by insertion order; none when
no covering subset exists. -/
def selectCoins (utxos : List Utxo) (asset : String) (amount : Nat) :
    Option (List Utxo) :=
  (pickMin (selKey amount) (selCandidates utxos asset amount)).map Prod.snd

/-- Modelled from the spec: fillProposal, whose body is code of this
repository not under src/.  Following section 4.4 of the spec: select
market UTXOs for the requested asset (InsufficientFundsError when
impossible), select fee UTXOs for the network-fee asset
(InsufficientFeeFundsError when impossible; the fee amount is supplied
by the external pricing collaborator of section 9), and assemble the
transaction: the proposer's side carried by the swap request (an input
of AmountP of AssetP and, per the section 8 scenario, an output of
exactly AmountR of AssetR to the requester), the receiving output of
AmountP of AssetP (step 4), the change and fee-change outputs when
nonzero (steps 2 and 3), and the network fee as an explicit output
(section 3). -/
def fillProposal (opts : FillOpts) (feeAmount : Nat) : Except FillError FillResult :=
  match selectCoins opts.MarketUtxos opts.SwapRequest.AssetR opts.SwapRequest.AmountR with
  | none => .error .insufficientFunds
  | some mSel =>
    match selectCoins opts.FeeUtxos opts.FeeAsset feeAmount with
    | none => .error .insufficientFeeFunds
    | some fSel =>
      let change := sumUtxos mSel - opts.SwapRequest.AmountR
      let feeChange := sumUtxos fSel - feeAmount
      let ins := mSel.map (fun u => (u.Asset, u.Value))
        ++ fSel.map (fun u => (u.Asset, u.Value))
        ++ [(opts.SwapRequest.AssetP, opts.SwapRequest.AmountP)]
      let outs := [(opts.SwapRequest.AssetP, opts.SwapRequest.AmountP),
                   (opts.SwapRequest.AssetR, opts.SwapRequest.AmountR)]
        ++ (if change ≠ 0 then [(opts.SwapRequest.AssetR, change)] else [])
        ++ [(opts.FeeAsset, feeAmount)]
        ++ (if feeChange ≠ 0 then [(opts.FeeAsset, feeChange)] else [])
      .ok { Tx := { Ins := ins, Outs := outs }, SelectedUnspents := mSel ++ fSel }

/-- Per-asset sum of the unblinded values of one side of a transaction. -/
def legSum (legs : List (String × Nat)) (a : String) : Nat :=
  ((legs.filter (fun p => p.1 == a)).map Prod.snd).sum

/-- Best-selection property of a subset: it is an enumerated covering
candidate and no candidate has a strictly smaller key, i.e. it minimizes
leftover, then input count, then insertion order. -/
def IsBestSelection (utxos : List Utxo) (asset : String) (amount : Nat)
    (sel : List Utxo) : Prop :=
  ∃ i, (i, sel) ∈ selCandidates utxos asset amount ∧
    ∀ q ∈ selCandidates utxos asset amount,
      keyLT (selKey amount q) (selKey amount (i, sel)) = false

/-- Market UTXO used by the concrete fill-proposal scenarios. -/
def u1 : Utxo := { Hash := "t1", Index := 0, Value := 100, Asset := "a" }

/-- Fee UTXO used by the concrete fill-proposal scenarios. -/
def fu1 : Utxo := { Hash := "t2", Index := 1, Value := 10, Asset := "f" }

/-- Address info used by the concrete fill-proposal scenarios. -/
def ai0 : AddressInfo := { Address := "addr", BlindingKey := [1] }

/-- Concrete fill-proposal options: buy 30 of asset a for 5 of asset b,
one market UTXO of 100 a, one fee UTXO of 10 f. -/
def opt0 : FillOpts :=
  { SwapRequest := { AmountP := 5, AssetP := "b", AmountR := 30, AssetR := "a" },
    MarketUtxos := [u1], FeeUtxos := [fu1],
    OutputInfo := ai0, ChangeInfo := ai0, FeeChangeInfo := ai0, FeeAsset := "f" }

/-- The result fillProposal produces on opt0 with fee amount 3. -/
def r0 : FillResult :=
  { Tx := { Ins := [("a", 100), ("f", 10), ("b", 5)],
            Outs := [("b", 5), ("a", 30), ("a", 70), ("f", 3), ("f", 7)] },
    SelectedUnspents := [u1, fu1] }

/-- Market UTXO of the counter asset b, richer than the requested amount. -/
def u5 : Utxo := { Hash := "t3", Index := 2, Value := 100, Asset := "b" }

/-- Fill-proposal options whose market holds zero UTXOs of the requested
asset a, only the 100-unit UTXO of asset b. -/
def opt5 : FillOpts :=
  { SwapRequest := { AmountP := 5, AssetP := "b", AmountR := 30, AssetR := "a" },
    MarketUtxos := [u5], FeeUtxos := [fu1],
    OutputInfo := ai0, ChangeInfo := ai0, FeeChangeInfo := ai0, FeeAsset := "f" }

/-- Owned confidential output used by the concrete extraction scenarios;
its on-chain range proof is [9, 9], not the [0] placeholder. -/
def outW : TxOutput :=
  { Asset := [2], Value := [3], Script := [5], Nonce := [6],
    RangeProof := [9, 9], SurjectionProof := [8] }

/-- Input with a well-formed two-element witness stack. -/
def inpW : TxInput := { Hash := [1], Index := 0, Witness := [[7], [11]] }

/-- Transaction behind the happy-path extraction scenario. -/
def txW : Tx := { Inputs := [inpW], Outputs := [outW] }

/-- Unblinding result produced by envW on the owned output. -/
def ubW : UnblindedResult :=
  { AssetHash := "assetA", Value := 42, AssetBlinder := [3], ValueBlinder := [4] }

/-- Happy-path environment: the hex string aa parses to txW, every witness
element is its own public key whose witness script it also is, and
unblinding succeeds exactly under the blinding key [1]. -/
def envW : ChainEnv :=
  { parseTx := fun s => if s == "aa" then .ok txW else .error "invalid hex",
    parsePubKey := fun w => some w,
    witnessScript := fun pk _ => pk,
    unblindOutput := fun _ k => if k == [1] then some ubW else none,
    txIDFromBytes := fun b => hexEncode b.reverse,
    commitmentFromBytes := fun b => hexEncode b,
    txHash := fun _ => "txw" }

/-- Owned-scripts map covering both the output script [5] and the witness
script [11] of the spending input. -/
def mW : List (String × AddressInfo) :=
  [(hexEncode [5], { Address := "addr5", BlindingKey := [1] }),
   (hexEncode [11], { Address := "addr11", BlindingKey := [1] })]

/-- The Unspent record extractUnspents builds from txW under envW. -/
def uW : Unspent :=
  { TxID := "txw", VOut := 0, Value := 42, AssetHash := "assetA",
    ValueCommitment := hexEncode [3], AssetCommitment := hexEncode [2],
    ValueBlinder := [4], AssetBlinder := [3], ScriptPubKey := [5],
    Nonce := [6], RangeProof := [0], SurjectionProof := [0],
    Address := "addr5", Confirmed := false }

/-- The spent key extractUnspents derives from inpW under envW. -/
def kW : UnspentKey := { TxID := hexEncode [1], VOut := 0 }

/-- Input whose witness stack has exactly one element: the Go input loop
reads in.Witness[1] on it and panics with an index out of range. -/
def inpP : TxInput := { Hash := [1], Index := 0, Witness := [[2]] }

/-- Transaction containing only the one-element-witness input. -/
def txP : Tx := { Inputs := [inpP], Outputs := [] }

/-- Input whose second witness element is not a parseable public key: the
Go input loop discards the btcec.ParsePubKey error and hands the nil
key to payment.FromPublicKey, which dereferences it and panics. -/
def inpQ : TxInput := { Hash := [1], Index := 0, Witness := [[2], [3]] }

/-- Transaction containing only the bad-public-key input. -/
def txQ : Tx := { Inputs := [inpQ], Outputs := [] }

/-- Environment for the crash scenarios: aa parses to txP, bb parses to
txQ, and no witness element parses as a public key. -/
def envP : ChainEnv :=
  { parseTx := fun s =>
      if s == "aa" then .ok txP else if s == "bb" then .ok txQ else .error "parse",
    parsePubKey := fun _ => none,
    witnessScript := fun pk _ => pk,
    unblindOutput := fun _ _ => none,
    txIDFromBytes := fun b => hexEncode b.reverse,
    commitmentFromBytes := fun b => hexEncode b,
    txHash := fun _ => "txp" }

/-- Address info owning script [5] in the fail-fast scenarios. -/
def aiX : AddressInfo := { Address := "a5", BlindingKey := [9] }

/-- Owned-scripts map of the fail-fast scenarios. -/
def mX : List (String × AddressInfo) := [(hexEncode [5], aiX)]

/-- Transaction with a one-element-witness input and an owned output. -/
def txX : Tx := { Inputs := [inpP], Outputs := [outW] }

/-- Environment in which xx parses to txX and no output ever unblinds. -/
def envX : ChainEnv :=
  { parseTx := fun s => if s == "xx" then .ok txX else .error "parse",
    parsePubKey := fun _ => none,
    witnessScript := fun pk _ => pk,
    unblindOutput := fun _ _ => none,
    txIDFromBytes := fun b => hexEncode b.reverse,
    commitmentFromBytes := fun b => hexEncode b,
    txHash := fun _ => "txx" }

/-- Transaction with no inputs and one owned output. -/
def txY : Tx := { Inputs := [], Outputs := [outW] }

/-- Environment in which yy parses to txY and no output ever unblinds. -/
def envY : ChainEnv :=
  { parseTx := fun s => if s == "yy" then .ok txY else .error "parse",
    parsePubKey := fun _ => none,
    witnessScript := fun pk _ => pk,
    unblindOutput := fun _ _ => none,
    txIDFromBytes := fun b => hexEncode b.reverse,
    commitmentFromBytes := fun b => hexEncode b,
    txHash := fun _ => "txy" }

/-- PSET element keyed as sA in the blinding-data scenarios. -/
def psetElemA : PsetElem := { Ident := "sA", Data := [1] }

/-- PSET element keyed as sB, for which no key is supplied. -/
def psetElemB : PsetElem := { Ident := "sB", Data := [2] }

/-- Parsed PSET with one input and two outputs. -/
def ptxW : Pset := { Ins := [psetElemA], Outs := [psetElemA, psetElemB] }

/-- Blinding data recovered from psetElemA under envPsetW. -/
def dA : BlindingData :=
  { AssetHash := "x", Value := 1, AssetBlinder := [1], ValueBlinder := [2] }

/-- PSET environment: pp parses to ptxW and unblinding succeeds exactly
under the key [7]. -/
def envPsetW : PsetEnv :=
  { parsePset := fun s => if s == "pp" then .ok ptxW else .error "bad pset",
    unblind := fun e k =>
      if k == [7] then
        some { AssetHash := "x", Value := e.Data.sum, AssetBlinder := [1], ValueBlinder := [2] }
      else none }

/-- Blinding keys supplied for the identifier sA only. -/
def pkeys : List (String × List Nat) := [("sA", [7])]


theorem keyLT_irrefl (a : Nat × Nat × Nat) : keyLT a a = false := by
  obtain ⟨a1, a2, a3⟩ := a
  simp [keyLT]

theorem keyLT_asymm (a b : Nat × Nat × Nat) (h : keyLT a b = true) :
    keyLT b a = false := by
  obtain ⟨a1, a2, a3⟩ := a
  obtain ⟨b1, b2, b3⟩ := b
  simp [keyLT] at h ⊢
  omega

theorem keyLT_negtrans (a b c : Nat × Nat × Nat) (hab : keyLT a b = false)
    (hbc : keyLT b c = false) : keyLT a c = false := by
  obtain ⟨a1, a2, a3⟩ := a
  obtain ⟨b1, b2, b3⟩ := b
  obtain ⟨c1, c2, c3⟩ := c
  simp [keyLT] at hab hbc ⊢
  omega

theorem foldMin_mem (f : α → Nat × Nat × Nat) :
    ∀ (xs : List α) (x : α),
      xs.foldl (fun acc y => if keyLT (f y) (f acc) then y else acc) x ∈ x :: xs := by
  intro xs
  induction xs with
  | nil => intro x; simp
  | cons y ys ih =>
    intro x
    have h := ih (if keyLT (f y) (f x) then y else x)
    simp only [List.foldl_cons]
    rcases List.mem_cons.mp h with h1 | h1
    · by_cases hk : keyLT (f y) (f x) = true
      · simp [hk] at h1
        simp [List.foldl_cons, hk, h1]
      · simp [hk] at h1
        simp [List.foldl_cons, hk, h1]
    · simp [List.mem_cons]
      right; right; exact h1

theorem foldMin_min (f : α → Nat × Nat × Nat) :
    ∀ (xs : List α) (x : α) (b : α), b ∈ x :: xs →
      keyLT (f b) (f (xs.foldl (fun acc y => if keyLT (f y) (f acc) then y else acc) x)) = false := by
  intro xs
  induction xs with
  | nil =>
    intro x b hb
    simp at hb
    subst hb
    simp [keyLT_irrefl]
  | cons y ys ih =>
    intro x b hb
    simp only [List.foldl_cons]
    by_cases hk : keyLT (f y) (f x) = true
    · -- the accumulator becomes y
      rcases List.mem_cons.mp hb with h1 | h1
      · subst h1
        have hyr := ih y y (List.mem_cons_self y ys)
        have hxy : keyLT (f b) (f y) = false := keyLT_asymm _ _ hk
        have := keyLT_negtrans (f b) (f y)
          (f (ys.foldl (fun acc y => if keyLT (f y) (f acc) then y else acc) y)) hxy hyr
        simpa [hk] using this
      · have := ih y b h1
        simpa [hk] using this
    · -- the accumulator stays x
      have hk' : keyLT (f y) (f x) = false := by
        cases hkk : keyLT (f y) (f x)
        · rfl
        · exact absurd hkk hk
      rcases List.mem_cons.mp hb with h1 | h1
      · subst h1
        have := ih b b (List.mem_cons_self b ys)
        simpa [hk'] using this
      · rcases List.mem_cons.mp h1 with h2 | h2
        · subst h2
          have hxr := ih x x (List.mem_cons_self x ys)
          have := keyLT_negtrans (f b) (f x)
            (f (ys.foldl (fun acc y => if keyLT (f y) (f acc) then y else acc) x)) hk' hxr
          simpa [hk'] using this
        · have := ih x b (List.mem_cons_of_mem x h2)
          simpa [hk'] using this

theorem pickMin_mem (f : α → Nat × Nat × Nat) (l : List α) (a : α)
    (h : pickMin f l = some a) : a ∈ l := by
  cases l with
  | nil => simp [pickMin] at h
  | cons x xs =>
    simp [pickMin] at h
    subst h
    exact foldMin_mem f xs x

theorem pickMin_min (f : α → Nat × Nat × Nat) (l : List α) (a : α)
    (h : pickMin f l = some a) : ∀ b ∈ l, keyLT (f b) (f a) = false := by
  cases l with
  | nil => simp [pickMin] at h
  | cons x xs =>
    simp [pickMin] at h
    subst h
    exact fun b hb => foldMin_min f xs x b hb

theorem withIdx_mem (l : List α) : ∀ (n : Nat) (p : Nat × α), p ∈ withIdx n l → p.2 ∈ l := by
  induction l with
  | nil => intro n p hp; simp [withIdx] at hp
  | cons x xs ih =>
    intro n p hp
    simp only [withIdx, List.mem_cons] at hp
    rcases hp with h | h
    · subst h; simp
    · exact List.mem_cons_of_mem x (ih (n + 1) p h)

theorem selCandidates_sound (utxos : List Utxo) (asset : String) (amount : Nat)
    (p : Nat × List Utxo) (hp : p ∈ selCandidates utxos asset amount) :
    List.Sublist p.2 (utxos.filter (fun u => u.Asset == asset)) ∧ amount ≤ sumUtxos p.2 := by
  simp only [selCandidates, List.mem_filter, decide_eq_true_eq] at hp
  obtain ⟨hmem, hcov⟩ := hp
  have h2 := withIdx_mem _ 0 p hmem
  exact ⟨List.mem_sublists.mp h2, hcov⟩

theorem selectCoins_best (utxos : List Utxo) (asset : String) (amount : Nat)
    (sel : List Utxo) (h : selectCoins utxos asset amount = some sel) :
    ∃ i, (i, sel) ∈ selCandidates utxos asset amount ∧
      ∀ q ∈ selCandidates utxos asset amount,
        keyLT (selKey amount q) (selKey amount (i, sel)) = false := by
  simp only [selectCoins, Option.map_eq_some'] at h
  obtain ⟨p, hp, hsel⟩ := h
  refine ⟨p.1, ?_, ?_⟩
  · subst hsel
    exact pickMin_mem _ _ _ hp
  · subst hsel
    exact pickMin_min _ _ _ hp

theorem selectCoins_cover (utxos : List Utxo) (asset : String) (amount : Nat)
    (sel : List Utxo) (h : selectCoins utxos asset amount = some sel) :
    amount ≤ sumUtxos sel := by
  obtain ⟨i, hmem, _⟩ := selectCoins_best utxos asset amount sel h
  exact (selCandidates_sound utxos asset amount (i, sel) hmem).2

theorem selectCoins_asset (utxos : List Utxo) (asset : String) (amount : Nat)
    (sel : List Utxo) (h : selectCoins utxos asset amount = some sel) :
    ∀ x ∈ sel, x.Asset = asset := by
  obtain ⟨i, hmem, _⟩ := selectCoins_best utxos asset amount sel h
  have hsub := (selCandidates_sound utxos asset amount (i, sel) hmem).1
  intro x hx
  have := hsub.subset hx
  simp only [List.mem_filter, beq_iff_eq] at this
  exact this.2

theorem selectCoins_none (utxos : List Utxo) (asset : String) (amount : Nat)
    (h : ∀ s ∈ (utxos.filter (fun u => u.Asset == asset)).sublists, sumUtxos s < amount) :
    selectCoins utxos asset amount = none := by
  have hempty : selCandidates utxos asset amount = [] := by
    rw [selCandidates, List.filter_eq_nil_iff]
    intro p hp
    have h2 := withIdx_mem _ 0 p hp
    have := h p.2 h2
    simp only [decide_eq_true_eq]
    omega
  rw [selectCoins, hempty]
  rfl

theorem legSum_append (l1 l2 : List (String × Nat)) (a : String) :
    legSum (l1 ++ l2) a = legSum l1 a + legSum l2 a := by
  simp [legSum, List.filter_append]

theorem legSum_single (b : String) (v : Nat) (a : String) :
    legSum [(b, v)] a = if b == a then v else 0 := by
  by_cases h : b = a
  · simp [legSum, h]
  · simp [legSum, h]

theorem legSum_map_const (l : List Utxo) (b a : String) (h : ∀ x ∈ l, x.Asset = b) :
    legSum (l.map fun u => (u.Asset, u.Value)) a = if b == a then sumUtxos l else 0 := by
  induction l with
  | nil => by_cases hba : b = a <;> simp [legSum, sumUtxos, hba]
  | cons x xs ih =>
    have hx : x.Asset = b := h x (List.mem_cons_self x xs)
    have ihx := ih (fun y hy => h y (List.mem_cons_of_mem x hy))
    have hcons : ((x :: xs).map fun u => (u.Asset, u.Value)) =
        [(x.Asset, x.Value)] ++ (xs.map fun u => (u.Asset, u.Value)) := by simp
    rw [hcons, legSum_append, legSum_single, ihx, hx]
    by_cases hba : b = a
    · simp [hba, sumUtxos]
    · simp [hba]

theorem processOutputs_mem (env : ChainEnv) (infoByScript : List (String × AddressInfo))
    (txid : String) :
    ∀ (l : List TxOutput) (n : Nat) (us : List Unspent),
      processOutputs env infoByScript txid n l = .ok us → ∀ u ∈ us,
        ∃ out ∈ l, ∃ inf unconf,
          infoByScript.lookup (hexEncode out.Script) = some inf ∧
          env.unblindOutput out inf.BlindingKey = some unconf ∧
          u.Value = unconf.Value ∧ u.AssetHash = unconf.AssetHash ∧
          u.ValueCommitment = env.commitmentFromBytes out.Value ∧
          u.AssetCommitment = env.commitmentFromBytes out.Asset ∧
          u.ScriptPubKey = out.Script ∧ u.Address = inf.Address ∧
          u.Confirmed = false ∧ u.RangeProof = [0] ∧ u.SurjectionProof = [0] := by
  intro l
  induction l with
  | nil =>
    intro n us h u hu
    simp only [processOutputs] at h
    cases h
    simp at hu
  | cons out rest ih =>
    intro n us h u hu
    simp only [processOutputs] at h
    cases hlook : infoByScript.lookup (hexEncode out.Script) with
    | none =>
      simp only [hlook] at h
      obtain ⟨o, ho, rest'⟩ := ih (n + 1) us h u hu
      exact ⟨o, List.mem_cons_of_mem out ho, rest'⟩
    | some info =>
      simp only [hlook] at h
      cases hub : env.unblindOutput out info.BlindingKey with
      | none => simp only [hub] at h; cases h
      | some unconf =>
        simp only [hub] at h
        cases hrest : processOutputs env infoByScript txid (n + 1) rest with
        | error e => simp only [hrest] at h; cases h
        | ok us' =>
          simp only [hrest] at h
          cases h
          rcases List.mem_cons.mp hu with h1 | h1
          · subst h1
            exact ⟨out, List.mem_cons_self out rest, info, unconf, hlook, hub,
              rfl, rfl, rfl, rfl, rfl, rfl, rfl, rfl, rfl⟩
          · obtain ⟨o, ho, rest'⟩ := ih (n + 1) us' hrest u h1
            exact ⟨o, List.mem_cons_of_mem out ho, rest'⟩

theorem processOutputs_failing (env : ChainEnv) (infoByScript : List (String × AddressInfo))
    (txid : String) :
    ∀ (l : List TxOutput) (n : Nat),
      (∃ out ∈ l, ∃ inf, infoByScript.lookup (hexEncode out.Script) = some inf ∧
        env.unblindOutput out inf.BlindingKey = none) →
      processOutputs env infoByScript txid n l = .error .unblind := by
  intro l
  induction l with
  | nil =>
    intro n h
    obtain ⟨out, ho, _⟩ := h
    simp at ho
  | cons out rest ih =>
    intro n h
    obtain ⟨o, ho, inf, hlook, hub⟩ := h
    rcases List.mem_cons.mp ho with h1 | h1
    · subst h1
      simp only [processOutputs, hlook, hub]
    · simp only [processOutputs]
      cases hlook2 : infoByScript.lookup (hexEncode out.Script) with
      | none =>
        simp only [hlook2]
        exact ih (n + 1) ⟨o, h1, inf, hlook, hub⟩
      | some info2 =>
        simp only [hlook2]
        cases hub2 : env.unblindOutput out info2.BlindingKey with
        | none => simp only [hub2]
        | some unconf2 =>
          simp only [hub2, ih (n + 1) ⟨o, h1, inf, hlook, hub⟩]

/-- A transaction whose inputs all fit the pattern the input loop assumes:
an input with a nonempty witness stack has a second witness element that
parses as a public key.  On such transactions the input loop cannot
crash. -/
def InputsSafe (env : ChainEnv) (tx : Tx) : Prop :=
  ∀ i ∈ tx.Inputs, i.Witness ≠ [] →
    ∃ w pk, i.Witness.get? 1 = some w ∧ env.parsePubKey w = some pk

theorem processInputs_isSome (env : ChainEnv) (net : String)
    (infoByScript : List (String × AddressInfo)) :
    ∀ (l : List TxInput),
      (∀ i ∈ l, i.Witness ≠ [] →
        ∃ w pk, i.Witness.get? 1 = some w ∧ env.parsePubKey w = some pk) →
      ∃ keys, processInputs env net infoByScript l = some keys := by
  intro l
  induction l with
  | nil => intro _; exact ⟨[], rfl⟩
  | cons inp rest ih =>
    intro h
    obtain ⟨keys, hkeys⟩ := ih (fun i hi => h i (List.mem_cons_of_mem inp hi))
    by_cases hw : inp.Witness.length > 0
    · have hne : inp.Witness ≠ [] := by
        intro hnil
        rw [hnil] at hw
        simp at hw
      obtain ⟨w, pk, hget, hpk⟩ := h inp (List.mem_cons_self inp rest) hne
      simp only [processInputs, if_pos hw, hget, hpk, hkeys]
      by_cases hown : (infoByScript.lookup (hexEncode (env.witnessScript pk net))).isSome
      · simp only [hown]
        exact ⟨_, rfl⟩
      · simp only [Bool.not_eq_true] at hown
        simp only [hown]
        exact ⟨keys, rfl⟩
    · simp only [processInputs, if_neg hw]
      exact ⟨keys, hkeys⟩

theorem processPsetElems_idx_ge (env : PsetEnv) (keys : List (String × List Nat)) :
    ∀ (l : List PsetElem) (n : Nat) (D : List (Nat × BlindingData)),
      processPsetElems env keys n l = .ok D → ∀ p ∈ D, n ≤ p.1 := by
  intro l
  induction l with
  | nil =>
    intro n D h p hp
    simp only [processPsetElems] at h
    cases h
    simp at hp
  | cons e rest ih =>
    intro n D h p hp
    simp only [processPsetElems] at h
    cases hlook : keys.lookup e.Ident with
    | none =>
      simp only [hlook] at h
      have := ih (n + 1) D h p hp
      omega
    | some k =>
      simp only [hlook] at h
      cases hub : env.unblind e k with
      | none => simp only [hub] at h; cases h
      | some d =>
        simp only [hub] at h
        cases hrest : processPsetElems env keys (n + 1) rest with
        | error err => simp only [hrest] at h; cases h
        | ok D' =>
          simp only [hrest] at h
          cases h
          rcases List.mem_cons.mp hp with h1 | h1
          · subst h1; exact Nat.le_refl n
          · have := ih (n + 1) D' hrest p h1
            omega

theorem processPsetElems_skipped (env : PsetEnv) (keys : List (String × List Nat)) :
    ∀ (l : List PsetElem) (n : Nat) (D : List (Nat × BlindingData)),
      processPsetElems env keys n l = .ok D →
      ∀ (i : Nat) (e : PsetElem), l.get? i = some e → keys.lookup e.Ident = none →
        ∀ d, (n + i, d) ∉ D := by
  intro l
  induction l with
  | nil =>
    intro n D h i e hget
    simp at hget
  | cons e0 rest ih =>
    intro n D h i e hget hnokey d hd
    simp only [processPsetElems] at h
    cases hlook : keys.lookup e0.Ident with
    | none =>
      simp only [hlook] at h
      cases i with
      | zero =>
        simp only [List.get?_cons_zero] at hget
        cases hget
        have := processPsetElems_idx_ge env keys rest (n + 1) D h (n + 0, d) hd
        omega
      | succ j =>
        simp only [List.get?_cons_succ] at hget
        have := ih (n + 1) D h j e hget hnokey d
        have heq : n + 1 + j = n + (j + 1) := by omega
        rw [heq] at this
        exact this hd
    | some k =>
      simp only [hlook] at h
      cases hub : env.unblind e0 k with
      | none => simp only [hub] at h; cases h
      | some d0 =>
        simp only [hub] at h
        cases hrest : processPsetElems env keys (n + 1) rest with
        | error err => simp only [hrest] at h; cases h
        | ok D' =>
          simp only [hrest] at h
          cases h
          cases i with
          | zero =>
            simp only [List.get?_cons_zero] at hget
            cases hget
            rw [hlook] at hnokey
            cases hnokey
          | succ j =>
            simp only [List.get?_cons_succ] at hget
            rcases List.mem_cons.mp hd with h1 | h1
            · have : n + (j + 1) = n := congrArg Prod.fst h1
              omega
            · have := ih (n + 1) D' hrest j e hget hnokey d
              have heq : n + 1 + j = n + (j + 1) := by omega
              rw [heq] at this
              exact this h1

theorem processPsetElems_ok_of_all (env : PsetEnv) (keys : List (String × List Nat)) :
    ∀ (l : List PsetElem) (n : Nat),
      (∀ e ∈ l, ∀ k, keys.lookup e.Ident = some k → env.unblind e k ≠ none) →
      ∃ D, processPsetElems env keys n l = .ok D := by
  intro l
  induction l with
  | nil => intro n _; exact ⟨[], rfl⟩
  | cons e rest ih =>
    intro n h
    obtain ⟨D, hD⟩ := ih (n + 1) (fun x hx => h x (List.mem_cons_of_mem e hx))
    simp only [processPsetElems]
    cases hlook : keys.lookup e.Ident with
    | none => exact ⟨D, hD⟩
    | some k =>
      cases hub : env.unblind e k with
      | none => exact absurd hub (h e (List.mem_cons_self e rest) k hlook)
      | some d =>
        simp only [hub, hD]
        exact ⟨(n, d) :: D, rfl⟩

/-- C6: for every txHex string that the transaction parser rejects,
ExtractUnspents returns the parse error and no unspents and no spent
keys, regardless of the owned-scripts map. -/
theorem extractUnspents_parse_error (env : ChainEnv) (txHex : String)
    (infoByScript : List (String × AddressInfo)) (net : String) (e : String)
    (h : env.parseTx txHex = .error e) :
    extractUnspents env txHex infoByScript net = some (.error (.parse e)) := by
  simp [extractUnspents, h]

/-- C6 witness: under envW the string zz is not a well-formed transaction
hex and the call returns exactly the parse error. -/
theorem extractUnspents_parse_error_witness :
    extractUnspents envW "zz" mW "net" = some (.error (.parse "invalid hex")) :=
  extractUnspents_parse_error envW "zz" mW "net" "invalid hex" (by decide)

/-- C8: ExtractUnspents is deterministic and idempotent: it is a pure
function of its arguments, so two invocations with identical transaction
hex, owned-scripts map and network that return newUnspents and spentKeys
return identical lists, with no duplicated or extra entries on replay. -/
theorem extractUnspents_idempotent (env : ChainEnv) (txHex : String)
    (infoByScript : List (String × AddressInfo)) (net : String)
    (us us' : List Unspent) (sk sk' : List UnspentKey)
    (h : extractUnspents env txHex infoByScript net = some (.ok (us, sk)))
    (h' : extractUnspents env txHex infoByScript net = some (.ok (us', sk'))) :
    us' = us ∧ sk' = sk := by
  have heq := h'.symm.trans h
  have heq2 : Except.ok (ε := GoErr) (us', sk') = Except.ok (us, sk) := Option.some.inj heq
  cases heq2
  exact ⟨rfl, rfl⟩

/-- C8 witness: the happy-path extraction, invoked twice with identical
arguments, yields the identical unspent and spent-key lists. -/
theorem extractUnspents_idempotent_witness : [uW] = [uW] ∧ [kW] = [kW] :=
  extractUnspents_idempotent envW "aa" mW "net" [uW] [uW] [kW] [kW]
    (by decide) (by decide)

/-- C9: every Unspent record returned by a successful ExtractUnspents call
is marked unconfirmed and carries the unblinded value and asset, the
output's value and asset commitments, the output's script and the
address of the matching AddressInfo entry. -/
theorem extractUnspents_record_fields (env : ChainEnv) (txHex : String)
    (infoByScript : List (String × AddressInfo)) (net : String)
    (us : List Unspent) (sk : List UnspentKey)
    (h : extractUnspents env txHex infoByScript net = some (.ok (us, sk))) :
    ∀ u ∈ us, u.Confirmed = false ∧
      ∃ tx, env.parseTx txHex = .ok tx ∧
        ∃ out ∈ tx.Outputs, ∃ inf unconf,
          infoByScript.lookup (hexEncode out.Script) = some inf ∧
          env.unblindOutput out inf.BlindingKey = some unconf ∧
          u.Value = unconf.Value ∧ u.AssetHash = unconf.AssetHash ∧
          u.ValueCommitment = env.commitmentFromBytes out.Value ∧
          u.AssetCommitment = env.commitmentFromBytes out.Asset ∧
          u.ScriptPubKey = out.Script ∧ u.Address = inf.Address := by
  intro u hu
  rw [extractUnspents] at h
  cases hp : env.parseTx txHex with
  | error e => simp only [hp] at h; cases h
  | ok tx =>
    simp only [hp] at h
    cases hin : processInputs env net infoByScript tx.Inputs with
    | none => simp only [hin] at h; cases h
    | some spent =>
      simp only [hin] at h
      cases hout : processOutputs env infoByScript (env.txHash tx) 0 tx.Outputs with
      | error e => simp only [hout] at h; cases h
      | ok us0 =>
        simp only [hout] at h
        cases h
        obtain ⟨out, hmem, inf, unconf, h1, h2, h3, h4, h5, h6, h7, h8, h9, _, _⟩ :=
          processOutputs_mem env infoByScript (env.txHash tx) tx.Outputs 0 us hout u hu
        exact ⟨h9, tx, rfl, out, hmem, inf, unconf, h1, h2, h3, h4, h5, h6, h7, h8⟩

/-- C9 witness: the record built from the happy-path extraction carries
the unblinded data, the commitments, the script and the address. -/
theorem extractUnspents_record_fields_witness :
    uW.Confirmed = false ∧
    ∃ tx, envW.parseTx "aa" = .ok tx ∧
      ∃ out ∈ tx.Outputs, ∃ inf unconf,
        mW.lookup (hexEncode out.Script) = some inf ∧
        envW.unblindOutput out inf.BlindingKey = some unconf ∧
        uW.Value = unconf.Value ∧ uW.AssetHash = unconf.AssetHash ∧
        uW.ValueCommitment = envW.commitmentFromBytes out.Value ∧
        uW.AssetCommitment = envW.commitmentFromBytes out.Asset ∧
        uW.ScriptPubKey = out.Script ∧ uW.Address = inf.Address :=
  extractUnspents_record_fields envW "aa" mW "net" [uW] [kW] (by decide)
    uW (by decide)

/-- C10: every Unspent record returned by ExtractUnspents has its
RangeProof and SurjectionProof fields set to the single-zero-byte
placeholder make([]byte, 1), whatever proofs the matched transaction
output actually carries. -/
theorem extractUnspents_proof_placeholder (env : ChainEnv) (txHex : String)
    (infoByScript : List (String × AddressInfo)) (net : String)
    (us : List Unspent) (sk : List UnspentKey)
    (h : extractUnspents env txHex infoByScript net = some (.ok (us, sk))) :
    ∀ u ∈ us, u.RangeProof = [0] ∧ u.SurjectionProof = [0] := by
  intro u hu
  rw [extractUnspents] at h
  cases hp : env.parseTx txHex with
  | error e => simp only [hp] at h; cases h
  | ok tx =>
    simp only [hp] at h
    cases hin : processInputs env net infoByScript tx.Inputs with
    | none => simp only [hin] at h; cases h
    | some spent =>
      simp only [hin] at h
      cases hout : processOutputs env infoByScript (env.txHash tx) 0 tx.Outputs with
      | error e => simp only [hout] at h; cases h
      | ok us0 =>
        simp only [hout] at h
        cases h
        obtain ⟨_, _, _, _, _, _, _, _, _, _, _, _, _, hrp, hsp⟩ :=
          processOutputs_mem env infoByScript (env.txHash tx) tx.Outputs 0 us hout u hu
        exact ⟨hrp, hsp⟩

/-- C10 witness: the matched output of the happy-path extraction carries
the range proof [9, 9] on chain, yet the stored record holds the [0]
placeholder in both proof fields. -/
theorem extractUnspents_proof_placeholder_witness :
    outW.RangeProof = [9, 9] ∧ (uW.RangeProof = [0] ∧ uW.SurjectionProof = [0]) :=
  ⟨by decide,
   extractUnspents_proof_placeholder envW "aa" mW "net" [uW] [kW] (by decide)
     uW (by decide)⟩

/-- C2 counterexample: a parseable transaction whose owned output fails to
unblind on which ExtractUnspents does not return an unblind error (or
anything at all): its single input has a one-element witness stack, so
the input loop crashes on in.Witness[1] before the output loop runs.
The claim promises an error return for every parseable transaction; here
the call never returns. -/
theorem extractUnspents_failfast_cex :
    envX.parseTx "xx" = Except.ok txX ∧
    txX.Inputs = [inpP] ∧ inpP.Witness.length = 1 ∧
    mX.lookup (hexEncode outW.Script) = some aiX ∧
    envX.unblindOutput outW aiX.BlindingKey = none ∧
    extractUnspents envX "xx" mX "net" = none := by
  decide

/-- C2 as amended: provided every input of the parsed transaction either
has an empty witness stack or has a second witness element that parses
as a public key (so the input loop cannot crash), if any output whose
script is in the owned-scripts map fails to unblind with the supplied
blinding key, ExtractUnspents returns the unblind error and no unspents
and no spent keys, even when other owned outputs unblinded
successfully. -/
theorem extractUnspents_unblind_failfast (env : ChainEnv) (txHex : String)
    (infoByScript : List (String × AddressInfo)) (net : String) (tx : Tx)
    (hp : env.parseTx txHex = .ok tx)
    (hsafe : InputsSafe env tx)
    (hfail : ∃ out ∈ tx.Outputs, ∃ inf,
      infoByScript.lookup (hexEncode out.Script) = some inf ∧
      env.unblindOutput out inf.BlindingKey = none) :
    extractUnspents env txHex infoByScript net = some (.error .unblind) := by
  simp only [extractUnspents, hp]
  obtain ⟨keys, hkeys⟩ := processInputs_isSome env net infoByScript tx.Inputs hsafe
  simp only [hkeys,
    processOutputs_failing env infoByScript (env.txHash tx) tx.Outputs 0 hfail]

/-- C2 witness: a transaction with no inputs and one owned output whose
unblinding fails makes the call return exactly the unblind error. -/
theorem extractUnspents_unblind_failfast_witness :
    extractUnspents envY "yy" mX "net" = some (.error .unblind) :=
  extractUnspents_unblind_failfast envY "yy" mX "net" txY (by decide)
    (by intro i hi; simp [txY] at hi)
    ⟨outW, by decide, aiX, by decide, by decide⟩

/-- C3: the claim states that ExtractUnspents returns normally on every
parseable transaction.  It does not: on txP, whose single input has a
one-element witness stack, the Go loop reads in.Witness[1] and panics
with an index out of range, and on txQ, whose second witness element
does not parse as a public key, the discarded btcec.ParsePubKey error
leaves a nil pointer that payment.FromPublicKey dereferences.  The
embedding records both crashes as none. -/
theorem extractUnspents_crashes :
    envP.parseTx "aa" = Except.ok txP ∧ inpP.Witness.length = 1 ∧
    extractUnspents envP "aa" [] "net" = none ∧
    envP.parseTx "bb" = Except.ok txQ ∧
    inpQ.Witness.get? 1 = some [3] ∧ envP.parsePubKey [3] = none ∧
    extractUnspents envP "bb" [] "net" = none := by
  decide

/-- C7: ExtractBlindingData attempts unblinding only for indices with a
supplied key.  First conjunct: an unparseable PSET fails immediately
with the parse error and no maps.  Second conjunct: on success, an index
whose identifier has no supplied key contributes no entry to the
returned map (for inputs and outputs alike).  Third conjunct: when every
keyed element unblinds, the call succeeds, so unkeyed indices cause no
error either. -/
theorem extractBlindingData_keyed_only (env : PsetEnv) (psetBase64 : String)
    (inKeys outKeys : List (String × List Nat)) :
    (∀ e, env.parsePset psetBase64 = .error e →
      extractBlindingData env psetBase64 inKeys outKeys = .error (.parse e)) ∧
    (∀ ptx, env.parsePset psetBase64 = .ok ptx →
      (∀ inD outD,
        extractBlindingData env psetBase64 inKeys outKeys = .ok (inD, outD) →
        (∀ i e, ptx.Ins.get? i = some e → inKeys.lookup e.Ident = none →
          ∀ d, (i, d) ∉ inD) ∧
        (∀ i e, ptx.Outs.get? i = some e → outKeys.lookup e.Ident = none →
          ∀ d, (i, d) ∉ outD)) ∧
      ((∀ e ∈ ptx.Ins, ∀ k, inKeys.lookup e.Ident = some k → env.unblind e k ≠ none) →
       (∀ e ∈ ptx.Outs, ∀ k, outKeys.lookup e.Ident = some k → env.unblind e k ≠ none) →
        ∃ inD outD,
          extractBlindingData env psetBase64 inKeys outKeys = .ok (inD, outD))) := by
  constructor
  · intro e he
    simp [extractBlindingData, extractBlindingDataFromTx, he]
  · intro ptx hok
    constructor
    · intro inD outD h
      rw [extractBlindingData, extractBlindingDataFromTx] at h
      simp only [hok] at h
      cases hin : processPsetElems env inKeys 0 ptx.Ins with
      | error e => simp only [hin] at h; cases h
      | ok D1 =>
        simp only [hin] at h
        cases hout : processPsetElems env outKeys 0 ptx.Outs with
        | error e => simp only [hout] at h; cases h
        | ok D2 =>
          simp only [hout] at h
          cases h
          constructor
          · intro i e hget hnokey d
            have := processPsetElems_skipped env inKeys ptx.Ins 0 inD hin i e hget hnokey d
            simpa using this
          · intro i e hget hnokey d
            have := processPsetElems_skipped env outKeys ptx.Outs 0 outD hout i e hget hnokey d
            simpa using this
    · intro hins houts
      obtain ⟨D1, hD1⟩ := processPsetElems_ok_of_all env inKeys ptx.Ins 0 hins
      obtain ⟨D2, hD2⟩ := processPsetElems_ok_of_all env outKeys ptx.Outs 0 houts
      refine ⟨D1, D2, ?_⟩
      rw [extractBlindingData, extractBlindingDataFromTx]
      simp only [hok, hD1, hD2]

/-- C7 witness: the string bad fails to parse and returns exactly the
parse error, while on the parsed PSET ptxW the unkeyed output element at
index 1 contributes no entry to the returned output map. -/
theorem extractBlindingData_keyed_only_witness :
    extractBlindingData envPsetW "bad" pkeys pkeys = .error (.parse "bad pset") ∧
    (1, dA) ∉ [(0, dA)] :=
  ⟨(extractBlindingData_keyed_only envPsetW "bad" pkeys pkeys).1 "bad pset" (by decide),
   (((extractBlindingData_keyed_only envPsetW "pp" pkeys pkeys).2 ptxW (by decide)).1
      [(0, dA)] [(0, dA)] (by decide)).2 1 psetElemB (by decide) (by decide) dA⟩

theorem legSum_nil (a : String) : legSum [] a = 0 := rfl

theorem legSum_cons (p : String × Nat) (l : List (String × Nat)) (a : String) :
    legSum (p :: l) a = (if p.1 == a then p.2 else 0) + legSum l a := by
  by_cases h : p.1 = a
  · simp [legSum, h]
  · simp [legSum, h]

theorem legSum_ite (c : Nat) (b a : String) :
    legSum (if c ≠ 0 then [(b, c)] else []) a = if b == a then c else 0 := by
  by_cases hc : c = 0
  · subst hc
    simp [legSum]
  · simp [hc, legSum_single]

/-- C1: for every transaction produced by a successful fillProposal call
and every asset, the sum of the unblinded input values equals the sum of
the unblinded output values (the network fee is an explicit output), so
a proposal violating conservation is never returned. -/
theorem fillProposal_conservation (opts : FillOpts) (feeAmt : Nat) (res : FillResult)
    (h : fillProposal opts feeAmt = .ok res) (a : String) :
    legSum res.Tx.Ins a = legSum res.Tx.Outs a := by
  cases hm : selectCoins opts.MarketUtxos opts.SwapRequest.AssetR opts.SwapRequest.AmountR with
  | none => simp only [fillProposal, hm] at h; cases h
  | some mSel =>
    cases hf : selectCoins opts.FeeUtxos opts.FeeAsset feeAmt with
    | none => simp only [fillProposal, hm, hf] at h; cases h
    | some fSel =>
      simp only [fillProposal, hm, hf] at h
      cases h
      have hmc := selectCoins_cover _ _ _ _ hm
      have hfc := selectCoins_cover _ _ _ _ hf
      have hma := selectCoins_asset _ _ _ _ hm
      have hfa := selectCoins_asset _ _ _ _ hf
      simp only [legSum_append, legSum_cons, legSum_nil, legSum_ite,
        legSum_map_const mSel opts.SwapRequest.AssetR a hma,
        legSum_map_const fSel opts.FeeAsset a hfa]
      by_cases h1 : opts.SwapRequest.AssetR == a <;>
        by_cases h2 : opts.FeeAsset == a <;>
        by_cases h3 : opts.SwapRequest.AssetP == a <;>
        simp [h1, h2, h3] <;> omega

/-- C1 witness: the concrete proposal on opt0 conserves the traded asset
a: the selected 100 enter as input, 30 go to the requester and 70 to
change. -/
theorem fillProposal_conservation_witness :
    legSum r0.Tx.Ins "a" = legSum r0.Tx.Outs "a" :=
  fillProposal_conservation opt0 3 r0 (by decide) "a"

/-- C4: fillProposal's coin selection is deterministic: two calls with the
same options and fee amount return the same result, and the selected
unspents decompose into a market part and a fee part, each of which is
the covering subset minimizing leftover, with ties broken by fewest
inputs and then by the insertion order of the enumerated subsets. -/
theorem fillProposal_selection_spec (opts : FillOpts) (feeAmt : Nat) (res res' : FillResult)
    (h : fillProposal opts feeAmt = .ok res) (h' : fillProposal opts feeAmt = .ok res') :
    res' = res ∧ ∃ mSel fSel,
      res.SelectedUnspents = mSel ++ fSel ∧
      selectCoins opts.MarketUtxos opts.SwapRequest.AssetR opts.SwapRequest.AmountR = some mSel ∧
      selectCoins opts.FeeUtxos opts.FeeAsset feeAmt = some fSel ∧
      IsBestSelection opts.MarketUtxos opts.SwapRequest.AssetR opts.SwapRequest.AmountR mSel ∧
      IsBestSelection opts.FeeUtxos opts.FeeAsset feeAmt fSel := by
  have hres : res' = res := by
    have heq := h'.symm.trans h
    cases heq
    rfl
  refine ⟨hres, ?_⟩
  cases hm : selectCoins opts.MarketUtxos opts.SwapRequest.AssetR opts.SwapRequest.AmountR with
  | none => simp only [fillProposal, hm] at h; cases h
  | some mSel =>
    cases hf : selectCoins opts.FeeUtxos opts.FeeAsset feeAmt with
    | none => simp only [fillProposal, hm, hf] at h; cases h
    | some fSel =>
      simp only [fillProposal, hm, hf] at h
      cases h
      refine ⟨mSel, fSel, rfl, rfl, rfl, ?_, ?_⟩
      · obtain ⟨i, hmem, hmin⟩ := selectCoins_best _ _ _ _ hm
        exact ⟨i, hmem, hmin⟩
      · obtain ⟨j, hmem, hmin⟩ := selectCoins_best _ _ _ _ hf
        exact ⟨j, hmem, hmin⟩

/-- C4 witness: on opt0 with fee amount 3 two calls agree and the selected
unspents decompose into the best market and fee selections. -/
theorem fillProposal_selection_spec_witness :
    r0 = r0 ∧ ∃ mSel fSel,
      r0.SelectedUnspents = mSel ++ fSel ∧
      selectCoins opt0.MarketUtxos opt0.SwapRequest.AssetR opt0.SwapRequest.AmountR = some mSel ∧
      selectCoins opt0.FeeUtxos opt0.FeeAsset 3 = some fSel ∧
      IsBestSelection opt0.MarketUtxos opt0.SwapRequest.AssetR opt0.SwapRequest.AmountR mSel ∧
      IsBestSelection opt0.FeeUtxos opt0.FeeAsset 3 fSel :=
  fillProposal_selection_spec opt0 3 r0 r0 (by decide) (by decide)

/-- C5: when no subset of the market UTXOs of the requested asset covers
the requested amount, in particular when the market holds zero UTXOs of
the requested asset (whatever UTXOs of other assets it holds),
fillProposal returns the insufficient-funds error, producing no
transaction, and that error kind is distinct from the
insufficient-fee-funds error of the fee leg. -/
theorem fillProposal_insufficient (opts : FillOpts) (feeAmt : Nat)
    (h : ∀ s ∈ (opts.MarketUtxos.filter
        (fun u => u.Asset == opts.SwapRequest.AssetR)).sublists,
      sumUtxos s < opts.SwapRequest.AmountR) :
    fillProposal opts feeAmt = .error .insufficientFunds ∧
    FillError.insufficientFunds ≠ FillError.insufficientFeeFunds := by
  refine ⟨?_, by decide⟩
  have hnone :=
    selectCoins_none opts.MarketUtxos opts.SwapRequest.AssetR opts.SwapRequest.AmountR h
  simp [fillProposal, hnone]

/-- C5 witness: a market holding zero UTXOs of the requested asset a,
though it holds 100 units of asset b, cannot cover the requested 30 of
a, so the call fails with the trade-leg error, distinct from the
fee-leg error. -/
theorem fillProposal_insufficient_witness :
    fillProposal opt5 3 = .error .insufficientFunds ∧
    FillError.insufficientFunds ≠ FillError.insufficientFeeFunds :=
  fillProposal_insufficient opt5 3 (by decide)
